import Mathlib

/-!
Verification development for the text_toolkit package of the
SuperProcesamientoTexto repository.

Python strings are modelled as lists of characters (PyStr). Pure string
methods of the standard library (str.strip, str.lower, str.split,
unicodedata.normalize of kind NFKD, unicodedata.combining) are modelled as
executable Lean functions; the Unicode case and decomposition data is
modelled by a finite fragment (ASCII plus the Latin-1 letter block plus the
trade-mark sign) that covers every character appearing in this development,
with the identity behaviour elsewhere. Machine floats are modelled as
rationals, with the Python builtin round modelled as round-half-to-even.
Fallible Python code (raised exceptions) is modelled with Except.
-/

namespace TextToolkit

/-- Python string, modelled as its list of characters. -/
abbrev PyStr := List Char

/-- Exceptions raised by the modelled code paths. -/
inductive PyErr where
  | attributeError : PyErr
  | typeError : PyErr
  | valueError : PyErr
  | dataLoadMissing : String → PyErr
  | dataLoadMalformed : String → PyErr
deriving DecidableEq, Repr

/-- Whitespace class of Python regexes and str.strip / str.split
(ASCII fragment: space, tab, newline, carriage return, vertical tab,
form feed). -/
def pyIsSpace (c : Char) : Bool :=
  c.toNat == 32 || c.toNat == 9 || c.toNat == 10 || c.toNat == 13 ||
    c.toNat == 11 || c.toNat == 12

def isAsciiDigit (c : Char) : Bool := 48 ≤ c.toNat && c.toNat ≤ 57

def isAsciiUpper (c : Char) : Bool := 65 ≤ c.toNat && c.toNat ≤ 90

def isAsciiLower (c : Char) : Bool := 97 ≤ c.toNat && c.toNat ≤ 122

def isAsciiAlpha (c : Char) : Bool := isAsciiUpper c || isAsciiLower c

/-- Word-character class of Python regexes (backslash-w with re.UNICODE):
ASCII alphanumerics and underscore, plus the Latin-1 letters (codes 0xC0
to 0xFF except the multiplication and division signs), the fragment of the
Unicode table used in this development. -/
def isWordChar (c : Char) : Bool :=
  isAsciiAlpha c || isAsciiDigit c || c.toNat == 95 ||
    (192 ≤ c.toNat && c.toNat ≤ 255 && c.toNat != 215 && c.toNat != 247)

/-- Simple lowercase mapping of str.lower, on the ASCII and Latin-1
letter ranges (uppercase letters move down by 32; the multiplication sign
0xD7 is excluded); identity elsewhere. -/
def pyLowerChar (c : Char) : Char :=
  if 65 ≤ c.toNat ∧ c.toNat ≤ 90 then Char.ofNat (c.toNat + 32)
  else if 192 ≤ c.toNat ∧ c.toNat ≤ 222 ∧ c.toNat ≠ 215 then Char.ofNat (c.toNat + 32)
  else c

/-- Model of str.lower. -/
def pyLower (l : PyStr) : PyStr := l.map pyLowerChar

/-- Fragment of the Unicode NFKD decomposition table: accented Latin
lowercase letters decompose into the base letter followed by a combining
mark, and the trade-mark sign (a compatibility character) decomposes into
the uppercase letters T M. Characters outside the table are their own
decomposition. -/
def nfkdTable : List (Char × List Char) :=
  [ ('à', ['a', '\u0300']), ('á', ['a', '\u0301']), ('â', ['a', '\u0302']),
    ('ã', ['a', '\u0303']), ('ä', ['a', '\u0308']), ('ç', ['c', '\u0327']),
    ('è', ['e', '\u0300']), ('é', ['e', '\u0301']), ('ê', ['e', '\u0302']),
    ('ë', ['e', '\u0308']), ('ì', ['i', '\u0300']), ('í', ['i', '\u0301']),
    ('î', ['i', '\u0302']), ('ï', ['i', '\u0308']), ('ñ', ['n', '\u0303']),
    ('ò', ['o', '\u0300']), ('ó', ['o', '\u0301']), ('ô', ['o', '\u0302']),
    ('õ', ['o', '\u0303']), ('ö', ['o', '\u0308']), ('ù', ['u', '\u0300']),
    ('ú', ['u', '\u0301']), ('û', ['u', '\u0302']), ('ü', ['u', '\u0308']),
    ('Ã', ['A', '\u0303']), ('É', ['E', '\u0301']), ('Ñ', ['N', '\u0303']),
    ('™', ['T', 'M']) ]

def nfkdChar (c : Char) : List Char :=
  match nfkdTable.lookup c with
  | some ds => ds
  | none => [c]

/-- Model of unicodedata.normalize of kind NFKD. -/
def pyNFKD (l : PyStr) : PyStr := (l.map nfkdChar).flatten

/-- Combining marks (unicodedata.combining nonzero), fragment used by the
decomposition table above. -/
def isCombining (c : Char) : Bool :=
  c.toNat == 768 || c.toNat == 769 || c.toNat == 770 || c.toNat == 771 ||
    c.toNat == 776 || c.toNat == 807

/-- Drop every combining mark: the join over characters that are not
combining, from normalize_text. -/
def stripDiacritics (l : PyStr) : PyStr := l.filter (fun c => !(isCombining c))

/-- Model of str.strip with no arguments: drop whitespace on both ends. -/
def pyStrip (l : PyStr) : PyStr :=
  ((l.dropWhile pyIsSpace).reverse.dropWhile pyIsSpace).reverse

/-- Replacement of every maximal whitespace run by one space: the Python
re.sub of one-or-more whitespace with a single space. The boolean argument
records whether the previous character belonged to a whitespace run. -/
def collapseWsAux : PyStr → Bool → PyStr
  | [], _ => []
  | c :: cs, prevWs =>
    if pyIsSpace c then
      if prevWs then collapseWsAux cs true else ' ' :: collapseWsAux cs true
    else c :: collapseWsAux cs false

def pyCollapseWs (l : PyStr) : PyStr := collapseWsAux l false

namespace Normalizer

/-- Normalizer.normalize_text from text_toolkit/transformers/normalizer.py:
strip, lowercase, NFKD decomposition, drop combining marks, collapse
whitespace runs to single spaces. -/
def normalize_text (text : PyStr) : PyStr :=
  pyCollapseWs (stripDiacritics (pyNFKD (pyLower (pyStrip text))))

end Normalizer

/-- Fuel-based scanner behind runsBy; the fuel only serves structural
recursion and is irrelevant whenever it exceeds the length of the text. -/
def runsByGo (p : Char → Bool) : Nat → PyStr → List PyStr
  | 0, _ => []
  | _ + 1, [] => []
  | fuel + 1, c :: cs =>
    if p c then (c :: cs.takeWhile p) :: runsByGo p fuel (cs.dropWhile p)
    else runsByGo p fuel cs

/-- Maximal runs of characters satisfying p, in order, dropping the
characters that do not satisfy p. With p the word-character class this is
re.findall of one-or-more word characters; with p the complement of the
whitespace class it is str.split with no arguments. -/
def runsBy (p : Char → Bool) (l : PyStr) : List PyStr := runsByGo p (l.length + 1) l

namespace Tokenizer

/-- Modelled from the spec: the file transformers/tokenizer.py of
text_toolkit is absent from the snapshot; section 4.3 of the spec defines
tokenize as splitting purely on whitespace runs (empty input yields an
empty sequence), and the sibling implementation in
procesamientotexto/transformers/tokenizer.py is str.split with no
arguments. Both are maximal non-whitespace runs. -/
def tokenize_text (text : PyStr) : List PyStr :=
  runsBy (fun c => !(pyIsSpace c)) text

end Tokenizer

namespace Cleaner

/-- Local-part character class of the email regex of the Cleaner. -/
def isEmailLocalChar (c : Char) : Bool :=
  isAsciiAlpha c || isAsciiDigit c || c == '.' || c == '_' || c == '%' || c == '+' || c == '-'

/-- Domain character class of the email and www regexes of the Cleaner. -/
def isEmailDomChar (c : Char) : Bool :=
  isAsciiAlpha c || isAsciiDigit c || c == '.' || c == '-'

/-- Wordness of an optional character; the end of the text counts as a
non-word position for word boundaries. -/
def optWord (c : Option Char) : Bool :=
  match c with
  | some c => isWordChar c
  | none => false

/-- Length of the longest nonempty prefix of run that ends at a word
boundary, given the wordness of the character right after the run; none
when no prefix ends at a boundary. This implements the backtracking of a
greedy character-class repetition followed by a word-boundary assertion. -/
def lastBoundaryLen (run : PyStr) (nextW : Bool) : Option Nat :=
  go run.reverse nextW
where
  go : List Char → Bool → Option Nat
    | [], _ => none
    | c :: rest, nw =>
      if isWordChar c != nw then some (rest.length + 1) else go rest (isWordChar c)

/-- Match of a literal pattern at the head of the text. -/
def dropLit (pat : PyStr) (l : PyStr) : Option PyStr :=
  if l.take pat.length == pat then some (l.drop pat.length) else none

/-- Case-insensitive match of a (lowercase) literal pattern at the head. -/
def matchLitCI (pat : PyStr) (l : PyStr) : Bool :=
  pyLower (l.take pat.length) == pat

/-- Descending positions of the dot character inside a domain run. -/
def dotPositionsDesc (dom : PyStr) : List Nat :=
  ((List.range dom.length).filter (fun i => dom.getD i ' ' == '.')).reverse

/-- Backtracking search for the domain tail of the email regex: inside the
greedy domain-character run dom, find the regex-preferred split into a
nonempty domain head, a literal dot, and a greedy alphabetic tail of
length at least two followed by a word boundary. afterDom is the character
right after the run. Returns the number of characters of dom consumed. -/
def emailDomSplit (dom : PyStr) (afterDom : Option Char) : Option Nat :=
  (dotPositionsDesc dom).findSome? fun i =>
    if i = 0 then none
    else
      let tld := (dom.drop (i + 1)).takeWhile isAsciiAlpha
      if tld.length < 2 then none
      else
        let k := i + 1 + tld.length
        let next := (dom.drop k).head?.orElse fun _ => afterDom
        if optWord next then none else some k

/-- Attempt, at the current position, of the email regex of the Cleaner
(word boundary, local part, at sign, domain, dot, alphabetic tail of
length at least two, word boundary). Returns the matched characters and
the rest of the text. -/
def tryEmail (prevW : Bool) (l : PyStr) : Option (PyStr × PyStr) :=
  let loc := l.takeWhile isEmailLocalChar
  match loc with
  | [] => none
  | c0 :: _ =>
    if prevW == isWordChar c0 then none
    else
      match l.drop loc.length with
      | '@' :: r2 =>
        let dom := r2.takeWhile isEmailDomChar
        match emailDomSplit dom ((r2.drop dom.length).head?) with
        | some k => some (loc ++ '@' :: r2.take k, r2.drop k)
        | none => none
      | _ => none

/-- Attempt of the http(s) URL regex of the Cleaner (word boundary, http
with optional s, colon-slash-slash, greedy non-whitespace run, word
boundary). -/
def tryUrlHttp (prevW : Bool) (l : PyStr) : Option (PyStr × PyStr) :=
  if prevW then none
  else
    match dropLit "http".data l with
    | none => none
    | some r0 =>
      let (hasS, r1) := match r0 with
        | 's' :: r => (true, r)
        | r => (false, r)
      let attempt := fun (hasS : Bool) (r : PyStr) =>
        match dropLit "://".data r with
        | none => none
        | some r2 =>
          let run := r2.takeWhile (fun c => !(pyIsSpace c))
          match lastBoundaryLen run (optWord ((r2.drop run.length).head?)) with
          | none => none
          | some k =>
            let proto := "http".data ++ (if hasS then ['s'] else []) ++ "://".data
            some (proto ++ run.take k, r2.drop k)
      if hasS then (attempt true r1).orElse fun _ => attempt false r0
      else attempt false r1

/-- Backtracking search for the www URL tail: inside the greedy domain run
find the preferred dot split (as for emails but with the optional
slash-path group before the final word boundary). Returns the consumed
length counted from the start of the domain run, where consumption may
extend past the run into a slash-path. -/
def wwwDomSplit (dom : PyStr) (afterRun : PyStr) : Option Nat :=
  (dotPositionsDesc dom).findSome? fun i =>
    if i = 0 then none
    else
      let tld := (dom.drop (i + 1)).takeWhile isAsciiAlpha
      if tld.length < 2 then none
      else
        let k := i + 1 + tld.length
        if k < dom.length then
          -- the character after the tail is a non-alphabetic domain
          -- character; the boundary holds unless it is a digit
          if optWord ((dom.drop k).head?) then none else some k
        else
          match afterRun with
          | '/' :: tail =>
            let seq := '/' :: tail.takeWhile (fun c => !(pyIsSpace c))
            let afterSeq := (tail.drop (seq.length - 1)).head?
            match lastBoundaryLen seq (optWord afterSeq) with
            | some k2 => some (k + k2)
            | none => some k
          | next =>
            if optWord next.head? then none else some k

/-- Attempt of the www URL regex of the Cleaner (word boundary, www dot,
domain, dot, alphabetic tail, optional slash path, word boundary). -/
def tryUrlWww (prevW : Bool) (l : PyStr) : Option (PyStr × PyStr) :=
  if prevW then none
  else
    match dropLit "www.".data l with
    | none => none
    | some r0 =>
      let dom := r0.takeWhile isEmailDomChar
      match wwwDomSplit dom (r0.drop dom.length) with
      | some k => some ("www.".data ++ r0.take k, r0.drop k)
      | none => none

/-- Attempt of the percentage regex of the Cleaner (word boundary, digits,
optional decimal part with dot or comma, percent sign, word boundary; the
trailing boundary after the non-word percent sign requires a following
word character). -/
def tryPercent (prevW : Bool) (l : PyStr) : Option (PyStr × PyStr) :=
  if prevW then none
  else
    let d1 := l.takeWhile isAsciiDigit
    if d1.isEmpty then none
    else
      let r1 := l.drop d1.length
      let tryTail (pfxLen : Nat) (r : PyStr) : Option (PyStr × PyStr) :=
        match r with
        | '%' :: r3 =>
          if optWord r3.head? then some (l.take (pfxLen + 1), r3) else none
        | _ => none
      match r1 with
      | sep :: r2 =>
        if sep == '.' || sep == ',' then
          let d2 := r2.takeWhile isAsciiDigit
          if d2.isEmpty then tryTail d1.length r1
          else
            match tryTail (d1.length + 1 + d2.length) (r2.drop d2.length) with
            | some res => some res
            | none => tryTail d1.length r1
        else tryTail d1.length r1
      | [] => none

/-- Separator class of the year-month-day date regex. -/
def isYmdSep (c : Char) : Bool := c == '-' || c == '/' || c == '.'

/-- Attempt of the year-month-day date regex (word boundary, four digits,
separator, two digits, separator, two digits, word boundary). -/
def tryDateYmd (prevW : Bool) (l : PyStr) : Option (PyStr × PyStr) :=
  if prevW then none
  else
    match l with
    | a :: b :: c :: d :: s1 :: e :: f :: s2 :: g :: h :: rest =>
      if [a, b, c, d, e, f, g, h].all isAsciiDigit && isYmdSep s1 && isYmdSep s2
          && !(optWord rest.head?) then
        some ([a, b, c, d, s1, e, f, s2, g, h], rest)
      else none
    | _ => none

/-- Attempt of the day-slash-month-slash-year date regex (word boundary,
two digits, slash, two digits, slash, four digits, word boundary). -/
def tryDateDmy (prevW : Bool) (l : PyStr) : Option (PyStr × PyStr) :=
  if prevW then none
  else
    match l with
    | a :: b :: s1 :: c :: d :: s2 :: e :: f :: g :: h :: rest =>
      if [a, b, c, d, e, f, g, h].all isAsciiDigit && s1 == '/' && s2 == '/'
          && !(optWord rest.head?) then
        some ([a, b, s1, c, d, s2, e, f, g, h], rest)
      else none
    | _ => none

/-- Month-name alternation of the date regexes: abbreviation and optional
completion suffix, in the alternation order of the pattern. -/
def monthsTable : List (PyStr × PyStr) :=
  [ ("jan".data, "uary".data), ("feb".data, "ruary".data), ("mar".data, "ch".data),
    ("apr".data, "il".data), ("may".data, "".data), ("jun".data, "e".data),
    ("jul".data, "y".data), ("aug".data, "ust".data), ("sep".data, "tember".data),
    ("oct".data, "ober".data), ("nov".data, "ember".data), ("dec".data, "ember".data) ]

/-- Candidate lengths of a case-insensitive month-name match at the head
of the text, in the preference order of the regex alternation (each
alternative tries its long form before its abbreviation). -/
def monthCandidates (l : PyStr) : List Nat :=
  monthsTable.flatMap fun (a, suf) =>
    let full := a ++ suf
    (if matchLitCI full l then [full.length] else []) ++
      (if suf.isEmpty || !(matchLitCI a l) then [] else [a.length])

/-- Continuation of the long month-name date regex after the month name:
whitespace, one or two day digits, optional ordinal suffix, optional
comma, whitespace, four year digits, word boundary. Returns the consumed
length. -/
def afterMonthLong (r : PyStr) : Option Nat :=
  let ws := r.takeWhile pyIsSpace
  if ws.isEmpty then none
  else
    let r1 := r.drop ws.length
    let ds := r1.takeWhile isAsciiDigit
    if ds.length = 0 || 3 ≤ ds.length then none
    else
      let r2 := r1.drop ds.length
      let sfx := if (pyLower (r2.take 2) == "st".data || pyLower (r2.take 2) == "nd".data
          || pyLower (r2.take 2) == "rd".data || pyLower (r2.take 2) == "th".data)
          && 2 ≤ r2.length then 2 else 0
      let r3 := r2.drop sfx
      let comma := if r3.head? == some ',' then 1 else 0
      let r4 := r3.drop comma
      let ws2 := r4.takeWhile pyIsSpace
      if ws2.isEmpty then none
      else
        let r5 := r4.drop ws2.length
        let y := r5.takeWhile isAsciiDigit
        if y.length = 4 && !(optWord (r5.drop 4).head?) then
          some (ws.length + ds.length + sfx + comma + ws2.length + 4)
        else none

/-- Attempt of the long month-name date regex (month name first). -/
def tryDateMonthLong (prevW : Bool) (l : PyStr) : Option (PyStr × PyStr) :=
  if prevW then none
  else
    (monthCandidates l).findSome? (fun mlen =>
      (afterMonthLong (l.drop mlen)).map fun klen => mlen + klen)
    |>.map fun total => (l.take total, l.drop total)

/-- Continuation of the short month-name date regex after the month name:
whitespace then four year digits then a word boundary. -/
def afterMonthShort (r : PyStr) : Option Nat :=
  let ws := r.takeWhile pyIsSpace
  if ws.isEmpty then none
  else
    let r1 := r.drop ws.length
    let y := r1.takeWhile isAsciiDigit
    if y.length = 4 && !(optWord (r1.drop 4).head?) then
      some (ws.length + 4)
    else none

/-- Attempt of the short month-name date regex (day digits first, then
month name, then year). -/
def tryDateMonthShort (prevW : Bool) (l : PyStr) : Option (PyStr × PyStr) :=
  if prevW then none
  else
    let ds := l.takeWhile isAsciiDigit
    if ds.length = 0 || 3 ≤ ds.length then none
    else
      let r1 := l.drop ds.length
      let ws := r1.takeWhile pyIsSpace
      if ws.isEmpty then none
      else
        let r2 := r1.drop ws.length
        (monthCandidates r2).findSome? (fun mlen =>
          (afterMonthShort (r2.drop mlen)).map fun klen =>
            ds.length + ws.length + mlen + klen)
        |>.map fun total => (l.take total, l.drop total)

/-- Positional placeholder written for the i-th protected substring. -/
def placeholder (i : Nat) : PyStr :=
  "__PROT".data ++ (Nat.repr i).data ++ "__".data

/-- Driver of one protection pass: scan the text left to right; at each
position attempt the pattern (with the word-boundary context of the
previous character of the original text); on a match, append the matched
substring to the protected list and emit its placeholder, resuming after
the match as re.sub does. Fuel is the length of the text plus one; every
match consumes at least one character, so the fuel never runs out. -/
def subProtect (tryAt : Bool → PyStr → Option (PyStr × PyStr)) :
    Nat → PyStr → Bool → List PyStr → PyStr × List PyStr
  | 0, l, _, acc => (l, acc)
  | fuel + 1, l, prevW, acc =>
    match l with
    | [] => ([], acc)
    | c :: cs =>
      match tryAt prevW (c :: cs) with
      | some (m, rest) =>
        let ph := placeholder acc.length
        let (out, acc2) := subProtect tryAt fuel rest (isWordChar (m.getLastD ' ')) (acc ++ [m])
        (ph ++ out, acc2)
      | none =>
        let (out, acc2) := subProtect tryAt fuel cs (isWordChar c) acc
        (c :: out, acc2)

/-- One protection pass over a whole text. -/
def protectPass (tryAt : Bool → PyStr → Option (PyStr × PyStr))
    (st : PyStr × List PyStr) : PyStr × List PyStr :=
  subProtect tryAt (st.1.length + 1) st.1 false st.2

/-- Model of str.replace: replace every occurrence of pat (nonempty) by
rep, scanning left to right without revisiting replacements. -/
def pyReplace (s pat rep : PyStr) : PyStr :=
  go (s.length + 1) s
where
  go : Nat → PyStr → PyStr
    | 0, l => l
    | _ + 1, [] => []
    | fuel + 1, c :: cs =>
      if (c :: cs).take pat.length == pat && !pat.isEmpty then
        rep ++ go fuel ((c :: cs).drop pat.length)
      else c :: go fuel cs

/-- Restoration loop of clean_text: replace each placeholder, in
placeholder-index order, by its protected substring. -/
def restoreAll (s : PyStr) (acc : List PyStr) : PyStr :=
  acc.enum.foldl (fun t (iv : Nat × PyStr) => pyReplace t (placeholder iv.1) iv.2) s

/-- Cleaner.clean_text from text_toolkit/transformers/cleaner.py: the five
kinds of protection passes (email, http URL, www URL, percentage, four
date shapes) substitute matches by positional placeholders; every
remaining character that is neither a word character nor whitespace
becomes a space; whitespace runs collapse to single spaces and the ends
are stripped; finally the placeholders are restored in index order. -/
def clean_text (text : PyStr) : PyStr :=
  let st1 := protectPass tryEmail (text, [])
  let st2 := protectPass tryUrlHttp st1
  let st3 := protectPass tryUrlWww st2
  let st4 := protectPass tryPercent st3
  let st5 := protectPass tryDateYmd st4
  let st6 := protectPass tryDateDmy st5
  let st7 := protectPass tryDateMonthLong st6
  let st8 := protectPass tryDateMonthShort st7
  let scrubbed := st8.1.map fun c =>
    if !(isWordChar c) && !(pyIsSpace c) then ' ' else c
  let cleaned := pyStrip (pyCollapseWs scrubbed)
  restoreAll cleaned st8.2

end Cleaner

/-- TransformerPipeline from text_toolkit/transformers/pipeline.py: the
optional cleaner and normalizer stages followed by the mandatory
tokenizer. -/
structure TransformerPipeline where
  cleaner : Bool
  normalizer : Bool
deriving DecidableEq, Repr

/-- TransformerPipeline.transform: apply the optional stages in order and
tokenize the result. -/
def TransformerPipeline.transform (p : TransformerPipeline) (text : PyStr) : List PyStr :=
  let t1 := if p.cleaner then Cleaner.clean_text text else text
  let t2 := if p.normalizer then Normalizer.normalize_text t1 else t1
  Tokenizer.tokenize_text t2

/-- Per-analyzer result mapping: a Python dict with string keys whose
values are ints, floats, strings or token-count dicts. -/
inductive PyVal where
  | vint : ℤ → PyVal
  | vnum : ℚ → PyVal
  | vstr : PyStr → PyVal
  | vcounts : List (PyStr × ℤ) → PyVal
deriving DecidableEq, Repr

abbrev PyDict := List (String × PyVal)

/-- TextDocument from text_toolkit/models/text_document.py: raw content
plus the analysis-result store keyed by pass identifier (each stored value
is an analyzer result mapping). The source also carries source_path and
metadata, never read by analyzers or extractors, which are omitted. -/
structure TextDocument where
  content : PyStr
  analysis_results : List (String × PyDict) := []
deriving DecidableEq, Repr

/-- TextDocument.tokens: the lazy tokens property computes
re.findall of one-or-more word characters over the lowercased raw content
(the memoization of the source is unobservable in a single-threaded pure
model). Note that the source does NOT call the transformer pipeline here;
a TODO comment in the source acknowledges the tokenizer package is not
integrated. -/
def TextDocument.tokens (d : TextDocument) : List PyStr :=
  runsBy isWordChar (pyLower d.content)

/-- TextDocument.get_analysis: dict.get on the analysis-result store. -/
def TextDocument.get_analysis (d : TextDocument) (key : String) : Option PyDict :=
  List.lookup key d.analysis_results

/-- TextDocument.is_empty: true when the stripped content is empty. -/
def TextDocument.is_empty (d : TextDocument) : Bool :=
  (pyStrip d.content).isEmpty

/-- Rounding of the Python builtin round to an integer: round half to
even (floats are modelled as exact rationals in this development). -/
def roundHalfToEven (x : ℚ) : ℤ :=
  let f := ⌊x⌋
  let r := x - f
  if r < 1 / 2 then f
  else if 1 / 2 < r then f + 1
  else if Even f then f else f + 1

/-- Model of round(x, 2). -/
def pyRound2 (x : ℚ) : ℚ := (roundHalfToEven (x * 100) : ℚ) / 100

/-- Model of collections.Counter over a list: per-key counts in
first-encounter order (new keys are appended as encountered). -/
def counterOf {α : Type} [BEq α] (l : List α) : List (α × ℤ) :=
  l.foldl bump []
where
  bump (acc : List (α × ℤ)) (k : α) : List (α × ℤ) :=
    if (acc.lookup k).isSome then
      acc.map fun kv => if kv.1 == k then (kv.1, kv.2 + 1) else kv
    else acc ++ [(k, 1)]

/-- Model of Counter.most_common(n): entries sorted by descending count,
ties kept in first-encounter order (the CPython sort is stable), first n
entries. -/
def mostCommon {α : Type} (n : Nat) (counts : List (α × ℤ)) : List (α × ℤ) :=
  (counts.mergeSort fun a b => b.2 ≤ a.2).take n

/-- Model of list(dict.fromkeys(x)): first-occurrence-order duplicate
removal. -/
def dedupKeepFirst {α : Type} [BEq α] : List α → List α :=
  go []
where
  go (seen : List α) : List α → List α
    | [] => []
    | x :: xs => if seen.contains x then go seen xs else x :: go (x :: seen) xs

namespace FrequencyAnalyzer

/-- FrequencyAnalyzer.analyze from
text_toolkit/analyzers/core/frequency_analyzer.py: on empty tokens the
defined empty result; otherwise per-token counts, the ten highest-count
tokens, and the most frequent token length. -/
def analyze (document : TextDocument) : PyDict :=
  let tokens := document.tokens
  if tokens.isEmpty then
    [ ("total_words", .vint 0), ("top_words", .vcounts []),
      ("word_counts", .vcounts []), ("most_common_length", .vint 0) ]
  else
    let word_counts := counterOf tokens
    let length_counts := counterOf (tokens.map List.length)
    let most_common_len : ℤ :=
      match (mostCommon 1 length_counts).head? with
      | some p => (p.1 : ℤ)
      | none => 0
    [ ("total_words", .vint tokens.length),
      ("top_words", .vcounts (mostCommon 10 word_counts)),
      ("word_counts", .vcounts word_counts),
      ("most_common_length", .vint most_common_len) ]

end FrequencyAnalyzer

namespace LanguageDetector

/-- Per-language confidence of the detector: the size of the intersection
of the token set with the stopword set of the language, divided by the
size of the stopword set; zero for an empty stopword set. -/
def score (words : List PyStr) (sw : List PyStr) : ℚ :=
  let swSet := sw.dedup
  if swSet.isEmpty then 0
  else ((swSet.filter fun w => words.contains w).length : ℚ) / swSet.length

/-- LanguageDetector.analyze from
text_toolkit/analyzers/core/language_detector.py, parameterized by the
language-to-stopword-list mapping loaded from stopwords.json (the mapping
preserves JSON insertion order; each list is read as a set). The Python
max over an empty dict raises ValueError; the empty token set
short-circuits before scoring. -/
def analyze (stopwords : List (String × List PyStr)) (document : TextDocument) :
    Except PyErr PyDict :=
  let words := document.tokens.dedup
  if words.isEmpty then
    .ok [("language", .vstr "unknown".data), ("confidence", .vnum 0)]
  else
    let scores := stopwords.map fun p => (p.1, score words p.2)
    match scores with
    | [] => .error .valueError
    | s0 :: rest =>
      let best := rest.foldl (fun b x => if b.2 < x.2 then x else b) s0
      let confidence := best.2
      let best_lang := if confidence = 0 then "unknown" else best.1
      .ok [("language", .vstr best_lang.data), ("confidence", .vnum (pyRound2 confidence))]

end LanguageDetector

namespace SentimentAnalyzer

/-- SentimentAnalyzer.analyze from
text_toolkit/analyzers/core/sentiment_analyzer.py, parameterized by the
positive and negative lexicons loaded from sentiment_words.json. The
label is computed from the unrounded score; the returned score is rounded
to two decimal places. -/
def analyze (posWords negWords : List PyStr) (document : TextDocument) : PyDict :=
  let words := document.tokens
  if words.isEmpty then
    [ ("sentiment", .vstr "neutral".data), ("score", .vnum 0),
      ("pos_count", .vint 0), ("neg_count", .vint 0) ]
  else
    let pos_count : ℤ := words.countP fun w => posWords.contains w
    let neg_count : ℤ := words.countP fun w => negWords.contains w
    let total := pos_count + neg_count
    let score : ℚ := if 0 < total then ((pos_count : ℚ) - neg_count) / total else 0
    let sentiment :=
      if 1 / 10 < score then "positive"
      else if score < -(1 / 10) then "negative"
      else "neutral"
    [ ("sentiment", .vstr sentiment.data), ("score", .vnum (pyRound2 score)),
      ("pos_count", .vint pos_count), ("neg_count", .vint neg_count) ]

end SentimentAnalyzer

/-- Readability threshold data as loaded by
DataLoader.load_readability_thresholds: the parsed JSON object is a plain
mapping from language code to a mapping of the four bound names to
numbers (NOT a pydantic ReadabilityConfig object, despite the type
annotation at the construction site). -/
abbrev ThresholdsDict := List (String × List (String × ℚ))

namespace ReadabilityAnalyzer

/-- Sentence segments of _extract_sentences: split the raw content on
maximal runs of sentence-terminal punctuation, keeping the fragments with
non-whitespace content. -/
def splitSegsGo (p : Char → Bool) : Nat → PyStr → List PyStr
  | 0, _ => [[]]
  | _ + 1, [] => [[]]
  | fuel + 1, c :: cs =>
    if p c then [] :: splitSegsGo p fuel (cs.dropWhile p)
    else
      match splitSegsGo p fuel cs with
      | [] => [[c]]
      | s :: ss => (c :: s) :: ss

def splitSegs (p : Char → Bool) (l : PyStr) : List PyStr :=
  splitSegsGo p (l.length + 1) l

def isSentenceEnd (c : Char) : Bool := c == '.' || c == '!' || c == '?'

def extract_sentences (text : PyStr) : List PyStr :=
  (splitSegs isSentenceEnd text).filter fun s => !(pyStrip s).isEmpty

/-- ReadabilityAnalyzer._get_document_language: the language of a prior
language_detector result stored on the document, or unknown when no (or a
falsy) result is stored; none models the Python None returned by
dict.get when the stored result lacks the language key (or holds a
non-string, which this model does not read). -/
def get_document_language (document : TextDocument) : Option PyStr :=
  match document.get_analysis "language_detector" with
  | none => some "unknown".data
  | some r =>
    if r.isEmpty then some "unknown".data
    else
      match List.lookup "language" r with
      | some (.vstr s) => some s
      | _ => none

/-- ReadabilityAnalyzer._calculate_complexity: the source line is
getattr(self._thresholds, language, self._thresholds.default). The stored
_thresholds object is the plain dict returned by
DataLoader.load_readability_thresholds, and Python evaluates the default
argument self._thresholds.default eagerly; a dict has no attribute named
default, so the call raises AttributeError before getattr can dispatch,
for every language value and every dict content. -/
def calculate_complexity (_thresholds : ThresholdsDict) (_avgSentenceLen _avgWordLen : ℚ)
    (_language : Option PyStr) : Except PyErr String :=
  .error .attributeError

/-- ReadabilityAnalyzer.analyze from
text_toolkit/analyzers/core/readability_analyzer.py: the empty result when
there are no words or no sentences; otherwise the averages, the language
from the document store, and the complexity classification (which raises,
see calculate_complexity). -/
def analyze (thresholds : ThresholdsDict) (document : TextDocument) :
    Except PyErr PyDict :=
  let sentences := extract_sentences document.content
  let words := document.tokens
  if words.isEmpty || sentences.isEmpty then
    .ok [ ("avg_sentence_length", .vnum 0), ("avg_word_length", .vnum 0),
          ("complexity", .vstr "unknown".data) ]
  else
    let avg_sentence_len : ℚ := (words.length : ℚ) / sentences.length
    let avg_word_len : ℚ := ((words.map List.length).sum : ℚ) / words.length
    let language := get_document_language document
    match calculate_complexity thresholds avg_sentence_len avg_word_len language with
    | .error e => .error e
    | .ok complexity =>
      .ok [ ("avg_sentence_length", .vnum (pyRound2 avg_sentence_len)),
            ("avg_word_length", .vnum (pyRound2 avg_word_len)),
            ("complexity", .vstr complexity.data) ]

end ReadabilityAnalyzer

/-- Model of dict-entry assignment: an existing key is updated in place,
a new key is appended. -/
def pyDictSet (a : PyDict) (k : String) (v : PyVal) : PyDict :=
  if (List.lookup k a).isSome then
    a.map fun kv => if kv.1 == k then (kv.1, v) else kv
  else a ++ [(k, v)]

/-- Model of dict.update: merge the right dict into the left one,
last write wins. -/
def pyDictUpdate (a b : PyDict) : PyDict :=
  b.foldl (fun acc kv => pyDictSet acc kv.1 kv.2) a

namespace AnalyzerRunner

/-- AnalyzerRunner.analyze from text_toolkit/analyzers/analyzer_runner.py
with all four analyzers active, parameterized by the lexicon and
threshold data the analyzer constructors load. Each analyzer result is
merged into the flat summary with dict.update; no analyzer and no runner
code calls document.add_analysis (no such call exists anywhere in
text_toolkit), so every analyzer receives the document with its
analysis-result store unchanged, and an exception raised by an analyzer
aborts the run. -/
def analyze (stopwords : List (String × List PyStr)) (posWords negWords : List PyStr)
    (thresholds : ThresholdsDict) (document : TextDocument) : Except PyErr PyDict :=
  let s1 := pyDictUpdate [] (FrequencyAnalyzer.analyze document)
  match LanguageDetector.analyze stopwords document with
  | .error e => .error e
  | .ok r2 =>
    let s2 := pyDictUpdate s1 r2
    let s3 := pyDictUpdate s2 (SentimentAnalyzer.analyze posWords negWords document)
    match ReadabilityAnalyzer.analyze thresholds document with
    | .error e => .error e
    | .ok r4 => .ok (pyDictUpdate s3 r4)

end AnalyzerRunner

namespace DataLoader

/-- DataLoader.load_json from
text_toolkit/analyzers/core/data/_data_loader.py: a missing file raises
DataLoadError (required data file missing), a file whose content fails to
parse raises DataLoadError (malformed JSON); only a successfully parsed
file is returned. The file system is modelled as a filename-to-content
mapping and the JSON parser as a function to an optional parse result;
the source also wraps any other read error in DataLoadError, which this
model subsumes in the malformed case comment-wise. -/
def load_json {α : Type} (fs : List (String × String)) (parse : String → Option α)
    (filename : String) : Except PyErr α :=
  match List.lookup filename fs with
  | none => .error (.dataLoadMissing filename)
  | some content =>
    match parse content with
    | none => .error (.dataLoadMalformed filename)
    | some j => .ok j

end DataLoader

namespace RegexExtractor

/-- RegexExtractor.add_patterns from text_toolkit/extractors/base.py,
called by the constructor on the full pattern list: each pattern is
compiled once; a compilation failure raises ValueError immediately. The
regex compiler is a parameter (re.compile), returning either a compiled
pattern or an error. -/
def add_patterns {α : Type} (compile : String → Except String α) :
    List String → Except PyErr (List α)
  | [] => .ok []
  | p :: ps =>
    match compile p with
    | .error _ => .error .valueError
    | .ok c =>
      match add_patterns compile ps with
      | .error e => .error e
      | .ok cs => .ok (c :: cs)

/-- RegexExtractor.extract: empty text yields no matches; otherwise every
compiled pattern contributes its findall matches in registration order,
optionally deduplicated in first-occurrence order. Extraction is a total
function of the compiled patterns: no compilation happens here. -/
def extract {α : Type} (findall : α → PyStr → List PyStr) (pats : List α)
    (text : PyStr) (unique_occurrences : Bool := false) : List PyStr :=
  if text.isEmpty then []
  else
    let results := (pats.map fun p => findall p text).flatten
    if unique_occurrences then dedupKeepFirst results else results

end RegexExtractor

/-- ExtractionResult from text_toolkit/models/extraction_result.py: the
dataclass has exactly the three match-list fields (and no
active_extractors field). -/
structure ExtractionResult where
  email_matches : List PyStr := []
  url_matches : List PyStr := []
  date_matches : List PyStr := []
deriving DecidableEq, Repr

/-- Keyword parameters accepted by the generated dataclass constructor of
ExtractionResult. -/
def extractionResultFields : List String :=
  ["email_matches", "url_matches", "date_matches"]

/-- Model of a keyword call of the generated ExtractionResult constructor:
Python raises TypeError when any keyword is not a dataclass field. -/
def extractionResultCall (kwargs : List String) (em um dm : List PyStr) :
    Except PyErr ExtractionResult :=
  if kwargs.all (fun k => extractionResultFields.contains k) then .ok ⟨em, um, dm⟩
  else .error .typeError

/-- Active-extractor configuration of ExtractorRunner (full construction
keeps all three; an allow-list keeps the recognized subset and ignores
unknown names). -/
structure ExtractorRunner where
  email : Bool
  url : Bool
  date : Bool
deriving DecidableEq, Repr

/-- ExtractorRunner.extract_all from
text_toolkit/extractors/extractor_runner.py: empty documents
short-circuit to a keyword-free ExtractionResult() call; otherwise each
active extractor runs over the raw content (the extract behaviours are
parameters), optional first-occurrence deduplication is applied, and the
result object is constructed with the four keywords email_matches,
url_matches, date_matches and active_extractors. -/
def ExtractorRunner.extract_all (r : ExtractorRunner)
    (emailExtract urlExtract dateExtract : PyStr → List PyStr)
    (document : TextDocument) (unique_occurrences : Bool := true) :
    Except PyErr ExtractionResult :=
  if document.is_empty then extractionResultCall [] [] [] []
  else
    let em0 := if r.email then emailExtract document.content else []
    let um0 := if r.url then urlExtract document.content else []
    let dm0 := if r.date then dateExtract document.content else []
    let em := if unique_occurrences then dedupKeepFirst em0 else em0
    let um := if unique_occurrences then dedupKeepFirst um0 else um0
    let dm := if unique_occurrences then dedupKeepFirst dm0 else dm0
    extractionResultCall
      ["email_matches", "url_matches", "date_matches", "active_extractors"] em um dm


namespace Claims

/-- Stopword table used for concrete instantiations: the es and en entries
of the language fingerprint data (as in the sibling in-repo implementation
of the detector; the text_toolkit copy loads the same shape from
stopwords.json, absent from the snapshot). -/
def sampleStopwords : List (String × List PyStr) :=
  [ ("es", ["el".data, "la".data, "de".data, "que".data, "y".data, "a".data,
      "en".data, "un".data, "ser".data, "se".data, "no".data, "por".data,
      "con".data, "para".data, "lo".data]),
    ("en", ["the".data, "be".data, "to".data, "of".data, "and".data, "a".data,
      "in".data, "that".data, "have".data, "i".data, "it".data, "for".data,
      "not".data, "on".data, "with".data]) ]

/-- Sentiment lexicons used for concrete instantiations (modelled from the
spec: sentiment_words.json is absent from the snapshot; the spec test
vocabulary uses good, great, excellent as positive and bad, terrible as
negative). -/
def samplePosWords : List PyStr := ["good".data, "great".data, "excellent".data]

def sampleNegWords : List PyStr := ["bad".data, "terrible".data]

/-- Quotient of the sentiment specification: the signed fraction of
sentiment hits over all hits, zero when no token hits either lexicon. -/
def sentimentQuotient (posWords negWords : List PyStr) (d : TextDocument) : ℚ :=
  let p : ℤ := d.tokens.countP fun w => posWords.contains w
  let n : ℤ := d.tokens.countP fun w => negWords.contains w
  if p + n ≠ 0 then ((p : ℚ) - (n : ℚ)) / (((p + n : ℤ) : ℚ)) else 0

/-- Sum of the values of a counts dict wrapped in the result value type;
none on any other shape. -/
def optSumCounts : Option PyVal → Option PyVal
  | some (PyVal.vcounts m) => some (PyVal.vint ((m.map Prod.snd).sum))
  | _ => none

/-- Concrete regex compiler, file system and parser used by the C9
witness: one pattern fails to compile, one file is present. -/
def sampleCompile : String → Except String String :=
  fun p => if p = "[" then Except.error "unbalanced bracket" else Except.ok p

def sampleFS : List (String × String) := [("stopwords.json", "x")]

def sampleParse : String → Option Nat := fun s => if s = "x" then some 7 else none

end Claims

/-- Confidence of the detector specification: the size of the
intersection of the token set with the stopword set of the language,
over the size of the stopword set (division by zero yields zero, the
value the code assigns to an empty stopword set). -/
def specConfidence (tokens : List PyStr) (sw : List PyStr) : ℚ :=
  ((tokens.toFinset ∩ sw.toFinset).card : ℚ) / (sw.toFinset.card : ℚ)

def C6Prop (sw : List (String × List PyStr)) (c : PyStr) (rs : List (String × PyDict)) : Prop :=
  ∃ (L : PyStr) (conf : ℚ),
    LanguageDetector.analyze sw ⟨c, rs⟩ =
      Except.ok [("language", PyVal.vstr L), ("confidence", PyVal.vnum (pyRound2 conf))] ∧
    (∀ p ∈ sw, specConfidence (TextDocument.tokens ⟨c, rs⟩) p.2 ≤ conf) ∧
    (conf = 0 → L = "unknown".data) ∧
    (conf ≠ 0 → ∃ entry ∈ sw, L = entry.1.data ∧
      conf = specConfidence (TextDocument.tokens ⟨c, rs⟩) entry.2) ∧
    (TextDocument.tokens ⟨c, rs⟩ = [] →
      conf = 0 ∧ L = "unknown".data ∧
      LanguageDetector.analyze [] ⟨c, rs⟩ =
        Except.ok [("language", PyVal.vstr "unknown".data), ("confidence", PyVal.vnum 0)])

/-- Glue a list of (token, following separator) pairs back into one
string: each token is immediately followed by its separator. -/
def sepGlue : List (PyStr × PyStr) → PyStr
  | [] => []
  | pr :: rest => pr.1 ++ pr.2 ++ sepGlue rest

/-- Every separator that sits between two consecutive tokens is
nonempty (the separator after the last token may be empty). -/
def innerSepsNonempty : List (PyStr × PyStr) → Prop
  | [] => True
  | [_] => True
  | pr :: q :: rest => pr.2 ≠ [] ∧ innerSepsNonempty (q :: rest)

/-- Invariants of the tokens accessor claimed by C10: every token is a
nonempty run of word characters (hence free of whitespace and
punctuation), already lowercase-fixed; concatenating the tokens yields
exactly the word characters of the lowercased content in order
(preservation of diacritics: the characters are those of the lowercased
content, with no decomposition applied); and the tokens are MAXIMAL
runs: the lowercased content decomposes as an optional leading
separator, then the tokens in order, each followed by a separator, where
every separator consists only of non-word characters and every
separator between two consecutive tokens is nonempty — so no token can
be extended on either side and no two adjacent tokens could be merged. -/
def C10Prop (d : TextDocument) : Prop :=
  (∀ t ∈ d.tokens, t ≠ [] ∧
    (∀ ch ∈ t, isWordChar ch = true ∧ pyIsSpace ch = false) ∧ pyLower t = t) ∧
  (d.tokens).flatten = (pyLower d.content).filter isWordChar ∧
  ∃ s0 pairs,
    d.tokens = List.map Prod.fst pairs ∧
    pyLower d.content = s0 ++ sepGlue pairs ∧
    (∀ ch ∈ s0, isWordChar ch = false) ∧
    (∀ pr ∈ pairs, ∀ ch ∈ pr.2, isWordChar ch = false) ∧
    innerSepsNonempty pairs

theorem dropWhile_length_le (p : Char → Bool) (l : List Char) :
    (l.dropWhile p).length ≤ l.length := by
  induction l with
  | nil => simp
  | cons c cs ih =>
    by_cases h : p c
    · simpa [List.dropWhile, h] using Nat.le_succ_of_le ih
    · simp [List.dropWhile, h]

theorem runsByGo_fuel_irrel (p : Char → Bool) :
    ∀ fuel fuel2 (l : PyStr), l.length < fuel → l.length < fuel2 →
      runsByGo p fuel l = runsByGo p fuel2 l := by
  intro fuel
  induction fuel with
  | zero => intro fuel2 l h; omega
  | succ f ih =>
    intro fuel2 l h h2
    match fuel2, l with
    | 0, l => omega
    | f2 + 1, [] => rfl
    | f2 + 1, c :: cs =>
      simp only [runsByGo]
      by_cases hp : p c
      · simp only [hp, if_true]
        have hd := dropWhile_length_le p cs
        have := ih f2 (cs.dropWhile p) (by simp at h; omega) (by simp at h2; omega)
        rw [this]
      · simp only [hp, if_false]
        exact ih f2 cs (by simp at h; omega) (by simp at h2; omega)

theorem runsBy_nil (p : Char → Bool) : runsBy p [] = [] := rfl

theorem runsBy_cons_pos (p : Char → Bool) (c : Char) (cs : PyStr) (h : p c) :
    runsBy p (c :: cs) = (c :: cs.takeWhile p) :: runsBy p (cs.dropWhile p) := by
  simp only [runsBy, runsByGo, List.length_cons, h, if_true]
  congr 1
  exact runsByGo_fuel_irrel p (cs.length + 1) ((cs.dropWhile p).length + 1)
    (cs.dropWhile p) (Nat.lt_succ_of_le (dropWhile_length_le p cs)) (Nat.lt_succ_self _)

theorem runsBy_cons_neg (p : Char → Bool) (c : Char) (cs : PyStr) (h : ¬ p c) :
    runsBy p (c :: cs) = runsBy p cs := by
  simp only [runsBy, runsByGo, List.length_cons, h, Bool.false_eq_true, if_false]

theorem pyRound2_zero : pyRound2 0 = 0 := by
  norm_num [pyRound2, roundHalfToEven]

theorem lookup_none_iff {α β : Type} [BEq α] [LawfulBEq α] (l : List (α × β)) (k : α) :
    List.lookup k l = none ↔ k ∉ l.map Prod.fst := by
  induction l with
  | nil => simp
  | cons a rest ih =>
    rw [List.lookup]
    by_cases h : k == a.1
    · have hk : k = a.1 := eq_of_beq h
      simp [h, hk]
    · have hk : k ≠ a.1 := fun hh => h (by simp [hh])
      simp [h, ih, hk]

theorem bump_fst_map {α : Type} [BEq α] [LawfulBEq α] (rest : List (α × ℤ)) (k : α)
    (hnotin : k ∉ rest.map Prod.fst) :
    rest.map (fun kv => if kv.1 == k then (kv.1, kv.2 + 1) else kv) = rest := by
  induction rest with
  | nil => rfl
  | cons a tl ih =>
    simp only [List.map_cons, List.mem_cons, List.map] at hnotin ⊢
    have h1 : k ≠ a.1 := fun hh => hnotin (Or.inl hh)
    have hb : (a.1 == k) = false := by
      cases hbe : a.1 == k with
      | false => rfl
      | true => exact absurd (eq_of_beq hbe).symm h1
    rw [hb]
    simp only [Bool.false_eq_true, if_false]
    rw [ih fun hh => hnotin (Or.inr hh)]

theorem bump_sum {α : Type} [BEq α] [LawfulBEq α] (acc : List (α × ℤ)) (k : α)
    (hnd : (acc.map Prod.fst).Nodup) :
    ((counterOf.bump acc k).map Prod.snd).sum = (acc.map Prod.snd).sum + 1 := by
  unfold counterOf.bump
  by_cases h : (List.lookup k acc).isSome
  · simp only [h, if_true]
    induction acc with
    | nil => simp [List.lookup] at h
    | cons a rest ih =>
      rw [List.lookup] at h
      by_cases hk : k == a.1
      · have hkk : k = a.1 := eq_of_beq hk
        have hnotin : k ∉ rest.map Prod.fst := by
          rw [hkk]
          exact (List.nodup_cons.mp hnd).1
        have hb : (a.1 == k) = true := by simp [hkk.symm]
        rw [List.map_cons, hb]
        simp only [if_true, List.map_cons, List.sum_cons,
          bump_fst_map rest k hnotin]
        ring
      · have hb : (a.1 == k) = false := by
          cases hbe : a.1 == k with
          | false => rfl
          | true => exact absurd (by simp [eq_of_beq hbe]) hk
        have hrec : (List.lookup k rest).isSome := by simpa [hk] using h
        have := ih (List.nodup_cons.mp hnd).2 hrec
        simp only [List.map_cons, hb, Bool.false_eq_true, if_false, List.sum_cons, this]
        ring
  · simp [h]

theorem bump_keys_nodup {α : Type} [BEq α] [LawfulBEq α] (acc : List (α × ℤ)) (k : α)
    (hnd : (acc.map Prod.fst).Nodup) :
    ((counterOf.bump acc k).map Prod.fst).Nodup := by
  unfold counterOf.bump
  by_cases h : (List.lookup k acc).isSome
  · simp only [h, if_true, List.map_map]
    have : (List.map (Prod.fst ∘ fun kv => if kv.1 == k then (kv.1, kv.2 + 1) else kv) acc)
        = acc.map Prod.fst := by
      apply List.map_congr_left
      intro kv _
      by_cases hk : kv.1 == k <;> simp [hk]
    rw [this]
    exact hnd
  · have hnotin : k ∉ acc.map Prod.fst := by
      rw [← lookup_none_iff]
      exact Option.not_isSome_iff_eq_none.mp h
    have hdisj : (acc.map Prod.fst).Disjoint [k] := by
      intro x hx hk2
      simp only [List.mem_singleton] at hk2
      subst hk2
      exact hnotin hx
    rw [if_neg h, List.map_append]
    simpa using List.Nodup.append hnd (List.nodup_singleton k) hdisj

theorem counterOf_sum {α : Type} [BEq α] [LawfulBEq α] (l : List α) :
    ((counterOf l).map Prod.snd).sum = (l.length : ℤ) := by
  suffices h : ∀ (l2 : List α) (acc : List (α × ℤ)), (acc.map Prod.fst).Nodup →
      ((l2.foldl counterOf.bump acc).map Prod.snd).sum = (acc.map Prod.snd).sum + l2.length ∧
      ((l2.foldl counterOf.bump acc).map Prod.fst).Nodup by
    have := (h l []) (by simp)
    simpa [counterOf] using this.1
  intro l2
  induction l2 with
  | nil =>
    intro acc hnd
    simpa using hnd
  | cons t ts ih =>
    intro acc hnd
    simp only [List.foldl_cons]
    have h1 := bump_sum acc t hnd
    have h2 := bump_keys_nodup acc t hnd
    have h3 := ih (counterOf.bump acc t) h2
    refine ⟨?_, h3.2⟩
    rw [h3.1, h1]
    simp only [List.length_cons]
    push_cast
    ring


theorem argmax_foldl_spec (s0 : String × ℚ) (rest : List (String × ℚ)) :
    ((rest.foldl (fun b x => if b.2 < x.2 then x else b) s0) = s0 ∨
      (rest.foldl (fun b x => if b.2 < x.2 then x else b) s0) ∈ rest) ∧
    s0.2 ≤ (rest.foldl (fun b x => if b.2 < x.2 then x else b) s0).2 ∧
    ∀ x ∈ rest, x.2 ≤ (rest.foldl (fun b x => if b.2 < x.2 then x else b) s0).2 := by
  induction rest generalizing s0 with
  | nil => simp
  | cons a tl ih =>
    simp only [List.foldl_cons]
    by_cases h : s0.2 < a.2
    · simp only [h, if_true]
      have hr := ih a
      refine ⟨?_, ?_, ?_⟩
      · rcases hr.1 with h1 | h1
        · exact Or.inr (by simp [h1])
        · exact Or.inr (List.mem_cons_of_mem a h1)
      · exact le_trans (le_of_lt h) hr.2.1
      · intro x hx
        rcases List.mem_cons.mp hx with rfl | hx
        · exact hr.2.1
        · exact hr.2.2 x hx
    · simp only [h, if_false]
      have hr := ih s0
      refine ⟨?_, hr.2.1, ?_⟩
      · rcases hr.1 with h1 | h1
        · exact Or.inl h1
        · exact Or.inr (List.mem_cons_of_mem a h1)
      · intro x hx
        rcases List.mem_cons.mp hx with rfl | hx
        · exact le_trans (le_of_not_lt h) hr.2.1
        · exact hr.2.2 x hx

theorem nodup_length_filter_toFinset (m : List PyStr) (hm : m.Nodup) (p : PyStr → Bool) :
    (m.filter p).length = (m.toFinset.filter (fun w => p w)).card := by
  rw [← List.toFinset_filter]
  rw [List.card_toFinset, List.Nodup.dedup (hm.filter p)]

theorem score_eq_specConfidence (toks sws : List PyStr) :
    LanguageDetector.score toks.dedup sws = specConfidence toks sws := by
  unfold LanguageDetector.score specConfidence
  by_cases h : sws.dedup.isEmpty
  · rw [List.isEmpty_iff] at h
    have hnil : sws = [] := (List.dedup_eq_nil sws).mp h
    subst hnil
    simp
  · simp only [h, Bool.false_eq_true, if_false]
    have hfilter := nodup_length_filter_toFinset sws.dedup (List.nodup_dedup sws)
      (fun w => toks.dedup.contains w)
    rw [hfilter]
    have hset : (sws.dedup.toFinset.filter fun w => toks.dedup.contains w) =
        toks.toFinset ∩ sws.toFinset := by
      ext w
      simp only [Finset.mem_filter, List.mem_toFinset, List.mem_dedup, Finset.mem_inter,
        List.elem_iff]
      tauto
    rw [hset, List.card_toFinset sws]

theorem toNat_ofNat_of_lt {n : Nat} (h : n < 55296) : (Char.ofNat n).toNat = n := by
  have hv : Nat.isValidChar n := Or.inl h
  simp [Char.ofNat, Char.ofNatAux, hv, Char.toNat, UInt32.toNat]

theorem pyLowerChar_toNat (c : Char) :
    (pyLowerChar c).toNat =
      if (65 ≤ c.toNat ∧ c.toNat ≤ 90) ∨ (192 ≤ c.toNat ∧ c.toNat ≤ 222 ∧ c.toNat ≠ 215)
      then c.toNat + 32 else c.toNat := by
  unfold pyLowerChar
  split_ifs with h1 h2 h3 h4 h5 <;>
    first
      | exact toNat_ofNat_of_lt (by omega)
      | rfl
      | omega

theorem pyLowerChar_fixed_of (m : Char)
    (h1 : ¬ (65 ≤ m.toNat ∧ m.toNat ≤ 90))
    (h2 : ¬ (192 ≤ m.toNat ∧ m.toNat ≤ 222 ∧ m.toNat ≠ 215)) :
    pyLowerChar m = m := by
  unfold pyLowerChar
  rw [if_neg h1, if_neg h2]

theorem pyLowerChar_idem (c : Char) : pyLowerChar (pyLowerChar c) = pyLowerChar c := by
  have ht := pyLowerChar_toNat c
  apply pyLowerChar_fixed_of <;> by_cases h : (65 ≤ c.toNat ∧ c.toNat ≤ 90) ∨
      (192 ≤ c.toNat ∧ c.toNat ≤ 222 ∧ c.toNat ≠ 215) <;>
    simp only [h, if_true, if_false] at ht <;> omega

theorem wordChar_not_space (c : Char) (h : isWordChar c = true) : pyIsSpace c = false := by
  simp only [isWordChar, isAsciiAlpha, isAsciiUpper, isAsciiLower, isAsciiDigit,
    Bool.or_eq_true, Bool.and_eq_true, decide_eq_true_eq, beq_iff_eq, bne_iff_ne,
    ne_eq] at h
  simp only [pyIsSpace, Bool.or_eq_false_iff, beq_eq_false_iff_ne, ne_eq]
  omega

theorem runsBy_props (p : Char → Bool) :
    ∀ (n : Nat) (l : PyStr), l.length ≤ n →
      (runsBy p l).flatten = l.filter p ∧
        ∀ t ∈ runsBy p l, t ≠ [] ∧ ∀ ch ∈ t, p ch := by
  intro n
  induction n with
  | zero =>
    intro l hl
    have : l = [] := List.length_eq_zero.mp (Nat.le_zero.mp hl)
    subst this
    simp [runsBy_nil]
  | succ n ih =>
    intro l hl
    match l with
    | [] => simp [runsBy_nil]
    | c :: cs =>
      simp only [List.length_cons] at hl
      by_cases hp : p c
      · rw [runsBy_cons_pos p c cs hp]
        have ihd := ih (cs.dropWhile p)
          (le_trans (dropWhile_length_le p cs) (by omega))
        constructor
        · simp only [List.flatten_cons, ihd.1]
          rw [List.filter_cons_of_pos hp]
          simp only [List.cons_append, List.cons.injEq, true_and]
          conv_rhs => rw [← List.takeWhile_append_dropWhile (p := p) (l := cs)]
          rw [List.filter_append]
          congr 1
          symm
          apply List.filter_eq_self.mpr
          intro a ha
          exact List.mem_takeWhile_imp ha
        · intro t htm
          rcases List.mem_cons.mp htm with rfl | htm
          · refine ⟨List.cons_ne_nil _ _, ?_⟩
            intro ch hch
            rcases List.mem_cons.mp hch with rfl | hch
            · exact hp
            · exact List.mem_takeWhile_imp hch
          · exact ihd.2 t htm
      · rw [runsBy_cons_neg p c cs hp]
        have ihc := ih cs (by omega)
        refine ⟨?_, ihc.2⟩
        rw [ihc.1, List.filter_cons_of_neg (by simpa using hp)]



theorem dropWhile_head_not (p : Char → Bool) (l : PyStr) (c : Char) (t : PyStr)
    (h : l.dropWhile p = c :: t) : p c = false := by
  induction l with
  | nil => simp at h
  | cons a rest ih =>
    rw [List.dropWhile_cons] at h
    by_cases ha : p a
    · exact ih (by simpa [ha] using h)
    · rw [if_neg (by simpa using ha)] at h
      cases h
      simpa using ha

theorem runsBy_decomp (p : Char → Bool) :
    ∀ (n : Nat) (l : PyStr), l.length ≤ n →
      ∃ s0 pairs,
        runsBy p l = List.map Prod.fst pairs ∧
        l = s0 ++ sepGlue pairs ∧
        (∀ ch ∈ s0, p ch = false) ∧
        (∀ pr ∈ pairs, ∀ ch ∈ pr.2, p ch = false) ∧
        innerSepsNonempty pairs := by
  intro n
  induction n with
  | zero =>
    intro l hl
    have : l = [] := List.length_eq_zero.mp (Nat.le_zero.mp hl)
    subst this
    exact ⟨[], [], by simp [runsBy_nil], rfl, by simp, by simp, trivial⟩
  | succ n ih =>
    intro l hl
    match l with
    | [] => exact ⟨[], [], by simp [runsBy_nil], rfl, by simp, by simp, trivial⟩
    | c :: cs =>
      simp only [List.length_cons] at hl
      by_cases hp : p c
      · obtain ⟨s0, pairs, h1, h2, h3, h4, h5⟩ :=
          ih (cs.dropWhile p) (le_trans (dropWhile_length_le p cs) (by omega))
        refine ⟨[], (c :: cs.takeWhile p, s0) :: pairs, ?_, ?_, by simp, ?_, ?_⟩
        · rw [runsBy_cons_pos p c cs hp, h1]
          rfl
        · show c :: cs = [] ++ sepGlue ((c :: cs.takeWhile p, s0) :: pairs)
          simp only [List.nil_append, sepGlue]
          rw [List.append_assoc, ← h2]
          simp only [List.cons_append, List.takeWhile_append_dropWhile]
        · intro pr hpr
          rcases List.mem_cons.mp hpr with rfl | hpr
          · exact h3
          · exact h4 pr hpr
        · cases pairs with
          | nil => trivial
          | cons q qs =>
            refine ⟨?_, h5⟩
            intro hs0
            subst hs0
            have hq : q.1 ∈ runsBy p (cs.dropWhile p) := by
              rw [h1]
              exact List.mem_map_of_mem Prod.fst (List.mem_cons_self q qs)
            have hprops := runsBy_props p (cs.dropWhile p).length (cs.dropWhile p) le_rfl
            obtain ⟨hne, hall⟩ := hprops.2 q.1 hq
            cases hq1 : q.1 with
            | nil => exact hne hq1
            | cons a as =>
              have hdw : cs.dropWhile p = a :: (as ++ (q.2 ++ sepGlue qs)) := by
                rw [h2]
                simp [sepGlue, hq1]
              have hfa : p a = false := dropWhile_head_not p cs a _ hdw
              have hta : p a = true := hall a (by rw [hq1]; exact List.mem_cons_self a as)
              rw [hta] at hfa
              simp at hfa
      · obtain ⟨s0, pairs, h1, h2, h3, h4, h5⟩ := ih cs (by omega)
        refine ⟨c :: s0, pairs, ?_, ?_, ?_, h4, h5⟩
        · rw [runsBy_cons_neg p c cs hp]
          exact h1
        · rw [List.cons_append, ← h2]
        · intro ch hch
          rcases List.mem_cons.mp hch with rfl | hch
          · simpa using hp
          · exact h3 ch hch

theorem dropWhile_getLast? (p : Char → Bool) (l : PyStr) (c : Char)
    (h : (l.dropWhile p).getLast? = some c) : l.getLast? = some c := by
  induction l with
  | nil => simp at h
  | cons a rest ih =>
    rw [List.dropWhile_cons] at h
    by_cases ha : p a
    · rw [if_pos (by simpa using ha)] at h
      have := ih h
      cases rest with
      | nil => simp at h
      | cons b rs => rw [List.getLast?_cons_cons]; exact this
    · rw [if_neg (by simpa using ha)] at h
      exact h

theorem mem_dropWhile (p : Char → Bool) (l : PyStr) (c : Char)
    (h : c ∈ l.dropWhile p) : c ∈ l := by
  induction l with
  | nil => simp at h
  | cons a rest ih =>
    rw [List.dropWhile_cons] at h
    by_cases ha : p a
    · rw [if_pos (by simpa using ha)] at h
      exact List.mem_cons_of_mem a (ih h)
    · rw [if_neg (by simpa using ha)] at h
      exact h

theorem mem_pyStrip (l : PyStr) (c : Char) (h : c ∈ pyStrip l) : c ∈ l := by
  unfold pyStrip at h
  rw [List.mem_reverse] at h
  have h2 := mem_dropWhile _ _ _ h
  rw [List.mem_reverse] at h2
  exact mem_dropWhile _ _ _ h2

theorem pyStrip_head (l : PyStr) (c : Char) (h : (pyStrip l).head? = some c) :
    pyIsSpace c = false := by
  unfold pyStrip at h
  rw [List.head?_reverse] at h
  have h2 := dropWhile_getLast? _ _ _ h
  rw [List.getLast?_reverse] at h2
  cases hl : (l.dropWhile pyIsSpace) with
  | nil => rw [hl] at h2; simp at h2
  | cons a t =>
    rw [hl] at h2
    rw [List.head?_cons] at h2
    cases h2
    exact dropWhile_head_not _ _ _ _ hl

theorem pyStrip_getLast (l : PyStr) (c : Char) (h : (pyStrip l).getLast? = some c) :
    pyIsSpace c = false := by
  unfold pyStrip at h
  rw [List.getLast?_reverse] at h
  cases hl : ((l.dropWhile pyIsSpace).reverse.dropWhile pyIsSpace) with
  | nil => rw [hl] at h; simp at h
  | cons a t =>
    rw [hl] at h
    rw [List.head?_cons] at h
    cases h
    exact dropWhile_head_not _ _ _ _ hl

theorem pyStrip_eq_self (y : PyStr)
    (hh : ∀ c, y.head? = some c → pyIsSpace c = false)
    (hl : ∀ c, y.getLast? = some c → pyIsSpace c = false) :
    pyStrip y = y := by
  unfold pyStrip
  cases y with
  | nil => rfl
  | cons a t =>
    have ha : pyIsSpace a = false := hh a rfl
    rw [List.dropWhile_cons, if_neg (by simp [ha])]
    cases hgl : (a :: t).getLast? with
    | none => simp at hgl
    | some c =>
      have hc : pyIsSpace c = false := hl c hgl
      cases hrev : (a :: t).reverse with
      | nil => simp at hrev
      | cons b rb =>
        have hb : b = c := by
          have := List.head?_reverse (a :: t)
          rw [hrev] at this
          rw [List.head?_cons] at this
          rw [hgl] at this
          exact (Option.some_inj.mp this)
        rw [List.dropWhile_cons]
        rw [if_neg (by simp [hb, hc])]
        rw [← hrev]
        rw [List.reverse_reverse]



theorem mem_collapseWsAux : ∀ (m : PyStr) (b : Bool) (c : Char),
    c ∈ collapseWsAux m b → c ∈ m ∨ c = ' ' := by
  intro m
  induction m with
  | nil => intro b c h; simp [collapseWsAux] at h
  | cons x rest ih =>
    intro b c h
    rw [collapseWsAux] at h
    by_cases hx : pyIsSpace x
    · rw [if_pos (by simpa using hx)] at h
      cases b with
      | true =>
        rcases ih true c h with h2 | h2
        · exact Or.inl (List.mem_cons_of_mem x h2)
        · exact Or.inr h2
      | false =>
        rcases List.mem_cons.mp h with rfl | h2
        · exact Or.inr rfl
        · rcases ih true c h2 with h3 | h3
          · exact Or.inl (List.mem_cons_of_mem x h3)
          · exact Or.inr h3
    · rw [if_neg (by simpa using hx)] at h
      rcases List.mem_cons.mp h with rfl | h2
      · exact Or.inl (List.mem_cons_self _ _)
      · rcases ih false c h2 with h3 | h3
        · exact Or.inl (List.mem_cons_of_mem x h3)
        · exact Or.inr h3

theorem collapseWsAux_idem : ∀ (m : PyStr),
    (collapseWsAux (collapseWsAux m true) true = collapseWsAux m true) ∧
    ∀ b, collapseWsAux (collapseWsAux m b) false = collapseWsAux m b := by
  intro m
  induction m with
  | nil => exact ⟨rfl, fun b => rfl⟩
  | cons x rest ih =>
    by_cases hx : pyIsSpace x
    · constructor
      · rw [collapseWsAux, if_pos (by simpa using hx)]
        exact ih.1
      · intro b
        cases b with
        | true =>
          rw [collapseWsAux, if_pos (by simpa using hx)]
          exact ih.2 true
        | false =>
          rw [collapseWsAux, if_pos (by simpa using hx)]
          show collapseWsAux (' ' :: collapseWsAux rest true) false =
            ' ' :: collapseWsAux rest true
          rw [collapseWsAux, if_pos (by simp [pyIsSpace])]
          show ' ' :: collapseWsAux (collapseWsAux rest true) true =
            ' ' :: collapseWsAux rest true
          rw [ih.1]
    · constructor
      · rw [collapseWsAux, if_neg (by simpa using hx)]
        show collapseWsAux (x :: collapseWsAux rest false) true =
          x :: collapseWsAux rest false
        rw [collapseWsAux, if_neg (by simpa using hx)]
        rw [ih.2 false]
      · intro b
        rw [collapseWsAux, if_neg (by simpa using hx)]
        show collapseWsAux (x :: collapseWsAux rest false) false =
          x :: collapseWsAux rest false
        rw [collapseWsAux, if_neg (by simpa using hx)]
        rw [ih.2 false]

theorem collapse_head (m : PyStr) (c : Char) (hc : m.head? = some c)
    (hns : pyIsSpace c = false) (b : Bool) :
    (collapseWsAux m b).head? = some c := by
  cases m with
  | nil => simp at hc
  | cons x rest =>
    rw [List.head?_cons] at hc
    cases hc
    rw [collapseWsAux, if_neg (by simp [hns])]
    rfl

theorem collapse_getLast (c : Char) (hns : pyIsSpace c = false) : ∀ (m : PyStr),
    m.getLast? = some c → ∀ b, (collapseWsAux m b).getLast? = some c := by
  intro m
  induction m with
  | nil => simp
  | cons x rest ih =>
    intro hgl b
    cases rest with
    | nil =>
      simp only [List.getLast?_singleton] at hgl
      cases hgl
      rw [collapseWsAux, if_neg (by simp [hns])]
      rfl
    | cons y t =>
      rw [List.getLast?_cons_cons] at hgl
      have hz := ih hgl
      have hzne : ∀ b2, collapseWsAux (y :: t) b2 ≠ [] := by
        intro b2 he
        have := hz b2
        rw [he] at this
        simp at this
      rw [collapseWsAux]
      by_cases hx : pyIsSpace x
      · rw [if_pos (by simpa using hx)]
        cases b with
        | true => exact hz true
        | false =>
          show (' ' :: collapseWsAux (y :: t) true).getLast? = some c
          cases hzz : collapseWsAux (y :: t) true with
          | nil => exact absurd hzz (hzne true)
          | cons z0 zt =>
            rw [List.getLast?_cons_cons]
            rw [← hzz]
            exact hz true
      · rw [if_neg (by simpa using hx)]
        show (x :: collapseWsAux (y :: t) false).getLast? = some c
        cases hzz : collapseWsAux (y :: t) false with
        | nil => exact absurd hzz (hzne false)
        | cons z0 zt =>
          rw [List.getLast?_cons_cons]
          rw [← hzz]
          exact hz false



theorem lookup_table_none {β : Type} (t : List (Char × β)) (c : Char)
    (hlt : c.toNat < 128) (ht : t.all (fun p => 128 ≤ p.1.toNat) = true) :
    t.lookup c = none := by
  induction t with
  | nil => rfl
  | cons kv rest ih =>
    rw [List.all_cons, Bool.and_eq_true] at ht
    rw [List.lookup]
    have hne : (c == kv.1) = false := by
      cases hbe : c == kv.1 with
      | false => rfl
      | true =>
        have : c = kv.1 := eq_of_beq hbe
        subst this
        simp only [decide_eq_true_eq] at ht
        omega
    rw [hne]
    exact ih ht.2

theorem nfkdChar_ascii (c : Char) (h : c.toNat < 128) : nfkdChar c = [c] := by
  unfold nfkdChar
  rw [lookup_table_none nfkdTable c h (by decide)]

theorem pyNFKD_ascii (m : PyStr) (h : ∀ c ∈ m, c.toNat < 128) : pyNFKD m = m := by
  unfold pyNFKD
  induction m with
  | nil => rfl
  | cons x rest ih =>
    rw [List.map_cons, List.flatten_cons, nfkdChar_ascii x (h x (List.mem_cons_self _ _))]
    rw [ih fun c hc => h c (List.mem_cons_of_mem x hc)]
    rfl

theorem isCombining_ascii (c : Char) (h : c.toNat < 128) : isCombining c = false := by
  simp only [isCombining, Bool.or_eq_false_iff, beq_eq_false_iff_ne, ne_eq]
  omega

theorem stripDiacritics_ascii (m : PyStr) (h : ∀ c ∈ m, c.toNat < 128) :
    stripDiacritics m = m := by
  unfold stripDiacritics
  apply List.filter_eq_self.mpr
  intro c hc
  simp [isCombining_ascii c (h c hc)]

theorem pyLowerChar_ascii (c : Char) (h : c.toNat < 128) : (pyLowerChar c).toNat < 128 := by
  have := pyLowerChar_toNat c
  by_cases hc : (65 ≤ c.toNat ∧ c.toNat ≤ 90) ∨ (192 ≤ c.toNat ∧ c.toNat ≤ 222 ∧ c.toNat ≠ 215)
  · rw [if_pos hc] at this
    omega
  · rw [if_neg hc] at this
    omega

theorem pyIsSpace_lowerChar (c : Char) : pyIsSpace (pyLowerChar c) = pyIsSpace c := by
  have := pyLowerChar_toNat c
  simp only [pyIsSpace]
  by_cases hc : (65 ≤ c.toNat ∧ c.toNat ≤ 90) ∨ (192 ≤ c.toNat ∧ c.toNat ≤ 222 ∧ c.toNat ≠ 215)
  · rw [if_pos hc] at this
    rw [this]
    have h1 : ∀ k : Nat, (c.toNat + 32 == k) = decide (c.toNat + 32 = k) := fun k => rfl
    have h2 : ∀ k : Nat, (c.toNat == k) = decide (c.toNat = k) := fun k => rfl
    simp only [h1, h2]
    have hfalse : ∀ k : Nat, k ≤ 32 → decide (c.toNat + 32 = k) = false ∧
        decide (c.toNat = k) = false := by
      intro k hk
      constructor <;> simp only [decide_eq_false_iff_not] <;> omega
    simp [(hfalse 32 le_rfl).1, (hfalse 9 (by omega)).1, (hfalse 10 (by omega)).1,
      (hfalse 13 (by omega)).1, (hfalse 11 (by omega)).1, (hfalse 12 (by omega)).1,
      (hfalse 32 le_rfl).2, (hfalse 9 (by omega)).2, (hfalse 10 (by omega)).2,
      (hfalse 13 (by omega)).2, (hfalse 11 (by omega)).2, (hfalse 12 (by omega)).2]
    omega
  · rw [if_neg hc] at this
    rw [this]



theorem normalize_ascii_form (l : PyStr) (h : ∀ c ∈ l, c.toNat < 128) :
    Normalizer.normalize_text l = pyCollapseWs (pyLower (pyStrip l)) := by
  unfold Normalizer.normalize_text
  have hlower : ∀ c ∈ pyLower (pyStrip l), c.toNat < 128 := by
    intro c hc
    obtain ⟨x, hx, rfl⟩ := List.mem_map.mp hc
    exact pyLowerChar_ascii x (h x (mem_pyStrip l x hx))
  rw [pyNFKD_ascii _ hlower, stripDiacritics_ascii _ hlower]

namespace Claims

/-- C1: the claim states that for every document with non-whitespace
content, ExtractorRunner.extract_all returns an ExtractionResult whose
active_extractors field lists the categories that ran. The code violates
this: the ExtractionResult dataclass has only the three match-list fields,
and the construction at the end of extract_all passes the keyword
active_extractors, so the generated constructor raises TypeError for
every document with non-whitespace content (the empty-document
short-circuit constructs without keywords and succeeds). The per-extractor
extract behaviours are arbitrary parameters since the crash happens after
them. -/
theorem c1_extract_all_type_error (cfg : ExtractorRunner)
    (fE fU fD : PyStr → List PyStr) (c : PyStr) (rs : List (String × PyDict))
    (u : Bool) :
    ExtractorRunner.extract_all cfg fE fU fD ⟨c, rs⟩ u =
      if (pyStrip c).isEmpty then Except.ok ⟨[], [], []⟩
      else Except.error PyErr.typeError := by
  by_cases h : (pyStrip c).isEmpty <;>
    simp [ExtractorRunner.extract_all, TextDocument.is_empty, extractionResultCall,
      extractionResultFields, h]

/-- C2: the claim states that ReadabilityAnalyzer.analyze selects the
per-language threshold set (default fallback) and classifies the content
I am ok. You are ok. We are ok. as low complexity. The code violates
this: _calculate_complexity evaluates self._thresholds.default on the
plain dict returned by DataLoader.load_readability_thresholds, raising
AttributeError for every threshold content (the theorem quantifies over
the loaded dict) on every document with words and sentences. -/
theorem c2_readability_attribute_error (td : ThresholdsDict) :
    ReadabilityAnalyzer.analyze td ⟨"I am ok. You are ok. We are ok.".data, []⟩ =
      Except.error PyErr.attributeError := rfl

/-- C3: the claim states the tokens accessor of the document equals the
TransformerPipeline (clean, then normalize, then tokenize) applied to the
raw content. The code violates this: the accessor runs re.findall of
word-character runs over the lowercased raw content and never invokes the
pipeline (a TODO comment in text_document.py acknowledges the missing
integration, and the test fixtures in tests/analyzers/conftest.py even
pass a pipeline keyword that the dataclass rejects). On the content
Café! the accessor keeps the diacritic while the pipeline strips it. -/
theorem c3_tokens_bypass_pipeline :
    TextDocument.tokens ⟨"Café!".data, []⟩ = ["café".data] ∧
      TransformerPipeline.transform ⟨true, true⟩ "Café!".data = ["cafe".data] ∧
      ("café".data : PyStr) ≠ "cafe".data := by
  refine ⟨by decide, by decide, by decide⟩

/-- C4: the claim states that AnalyzerRunner.analyze writes each analyzer
result into the analysis-result map of the document, where downstream
passes (Readability reading the LanguageDetector result) consume it. The
code violates this: no code in text_toolkit ever calls
document.add_analysis, so a runner pass leaves the store empty,
_get_document_language finds nothing and yields unknown for every
content, and the full four-analyzer run aborts inside ReadabilityAnalyzer
with the AttributeError of the thresholds bug (for every loaded
threshold dict). -/
theorem c4_results_never_stored :
    (∀ c : PyStr, ReadabilityAnalyzer.get_document_language ⟨c, []⟩ =
      some "unknown".data) ∧
    (∀ td : ThresholdsDict,
      AnalyzerRunner.analyze sampleStopwords samplePosWords sampleNegWords td
        ⟨"I am ok. You are ok. We are ok.".data, []⟩ =
        Except.error PyErr.attributeError) := by
  constructor
  · intro c
    rfl
  · intro td
    rfl

/-- C7 (counterexample): the claim states the returned score equals
(pos_count - neg_count) / (pos_count + neg_count); on three tokens with
two positive and one negative hits the quotient is one third, but the
analyzer returns its two-decimal rounding 0.33, which differs. -/
theorem c7_counterexample_score_rounded :
    SentimentAnalyzer.analyze samplePosWords sampleNegWords
        ⟨"good great bad".data, []⟩ =
      [ ("sentiment", PyVal.vstr "positive".data), ("score", PyVal.vnum (33 / 100)),
        ("pos_count", PyVal.vint 2), ("neg_count", PyVal.vint 1) ] ∧
    ((33 : ℚ) / 100) ≠ ((2 : ℚ) - 1) / ((2 : ℚ) + 1) := by
  constructor
  · have ht : TextDocument.tokens ⟨"good great bad".data, []⟩ =
        ["good".data, "great".data, "bad".data] := by decide
    have hp : (["good".data, "great".data, "bad".data] : List PyStr).countP
        (fun w => samplePosWords.contains w) = 2 := by decide
    have hn : (["good".data, "great".data, "bad".data] : List PyStr).countP
        (fun w => sampleNegWords.contains w) = 1 := by decide
    simp only [SentimentAnalyzer.analyze, ht, hp, hn]
    norm_num [pyRound2, roundHalfToEven]
  · norm_num


/-- C7 (amended): for every document and lexicons, the sentiment result
carries pos_count and neg_count as the lexicon hit counts, the score
field equal to the quotient (pos_count - neg_count) / (pos_count +
neg_count) (zero when the denominator vanishes) ROUNDED TO TWO DECIMAL
PLACES, and the label computed from the unrounded quotient: positive when
it exceeds 0.1, negative below -0.1, neutral otherwise; a document with
no tokens yields the neutral and zero result (the uniform right side
collapses to it). -/
theorem c7_sentiment_score_rounded (posWords negWords : List PyStr) (c : PyStr)
    (rs : List (String × PyDict)) :
    SentimentAnalyzer.analyze posWords negWords ⟨c, rs⟩ =
      [ ("sentiment", PyVal.vstr
          (if (1 : ℚ) / 10 < sentimentQuotient posWords negWords ⟨c, rs⟩ then
            "positive".data
          else if sentimentQuotient posWords negWords ⟨c, rs⟩ < -(1 / 10) then
            "negative".data
          else "neutral".data)),
        ("score", PyVal.vnum (pyRound2 (sentimentQuotient posWords negWords ⟨c, rs⟩))),
        ("pos_count", PyVal.vint
          ((TextDocument.tokens ⟨c, rs⟩).countP fun w => posWords.contains w)),
        ("neg_count", PyVal.vint
          ((TextDocument.tokens ⟨c, rs⟩).countP fun w => negWords.contains w)) ] := by
  unfold SentimentAnalyzer.analyze sentimentQuotient
  by_cases h : (TextDocument.tokens ⟨c, rs⟩).isEmpty
  · rw [List.isEmpty_iff] at h
    simp [h, pyRound2_zero]
    norm_num
  · simp only [h, Bool.false_eq_true, if_false]
    split_ifs with h1 h2 <;> simp_all <;> omega


/-- C6: for every nonempty stopword table and every document, the
language detector scores each language as the size of the intersection of
the token set with that languages stopword set over the size of the
stopword set, returns a maximizing language with the confidence rounded
to two decimal places, returns unknown with confidence zero exactly when
the maximum confidence is zero, and short-circuits an empty token set to
unknown with zero without scoring (witnessed by the empty table never
reaching the ValueError of the Python max). -/
theorem c6_language_detector_confidence (sw : List (String × List PyStr)) (c : PyStr)
    (rs : List (String × PyDict)) (h : sw ≠ []) : C6Prop sw c rs := by
  unfold C6Prop
  by_cases ht : (TextDocument.tokens ⟨c, rs⟩).dedup.isEmpty
  · have htok : TextDocument.tokens ⟨c, rs⟩ = [] := by
      rw [List.isEmpty_iff] at ht
      exact (List.dedup_eq_nil _).mp ht
    refine ⟨"unknown".data, 0, ?_, ?_, fun _ => rfl, fun hc => absurd rfl hc, ?_⟩
    · simp [LanguageDetector.analyze, ht, pyRound2_zero]
    · intro p hp
      simp [specConfidence, htok]
    · intro _
      refine ⟨rfl, rfl, ?_⟩
      simp [LanguageDetector.analyze, ht]
  · obtain ⟨s0sw, swrest, rfl⟩ : ∃ a b, sw = a :: b := by
      match sw, h with
      | a :: b, _ => exact ⟨a, b, rfl⟩
    simp only [LanguageDetector.analyze, ht, Bool.false_eq_true, if_false, List.map_cons]
    set f : String × List PyStr → String × ℚ :=
      fun p => (p.1, LanguageDetector.score (TextDocument.tokens ⟨c, rs⟩).dedup p.2) with hf
    set best := (swrest.map f).foldl (fun b x => if b.2 < x.2 then x else b) (f s0sw) with hbest
    have harg := argmax_foldl_spec (f s0sw) (swrest.map f)
    rw [← hbest] at harg
    refine ⟨(if best.2 = 0 then "unknown" else best.1).data, best.2, ?_, ?_, ?_, ?_, ?_⟩
    · rfl
    · intro p hp
      rw [← score_eq_specConfidence]
      rcases List.mem_cons.mp hp with rfl | hp
      · exact harg.2.1
      · exact harg.2.2 (f p) (List.mem_map_of_mem f hp)
    · intro h0
      rw [if_pos h0]
    · intro h0
      rw [if_neg h0]
      rcases harg.1 with hb | hb
      · exact ⟨s0sw, List.mem_cons_self s0sw swrest, by rw [hb], by
          rw [hb, ← score_eq_specConfidence]⟩
      · obtain ⟨entry, hent, hfe⟩ := List.mem_map.mp hb
        exact ⟨entry, List.mem_cons_of_mem s0sw hent, by rw [← hfe], by
          rw [← hfe, ← score_eq_specConfidence]⟩
    · intro htoks
      exfalso
      simp [htoks] at ht

/-- Witness for C6 at a concrete table and document. -/
theorem c6_language_detector_confidence_witness :
    sampleStopwords ≠ [] ∧ C6Prop sampleStopwords "the cat and the dog".data [] :=
  ⟨by decide, c6_language_detector_confidence sampleStopwords "the cat and the dog".data []
    (by decide)⟩

/-- C8: for every document (in particular every document with at least
one token), the frequency result satisfies that the sum of the values of
word_counts equals total_words: the counter distributes the token count
over per-token tallies. -/
theorem c8_word_counts_sum_total (c : PyStr) (rs : List (String × PyDict)) :
    optSumCounts (List.lookup "word_counts" (FrequencyAnalyzer.analyze ⟨c, rs⟩)) =
      List.lookup "total_words" (FrequencyAnalyzer.analyze ⟨c, rs⟩) := by
  unfold FrequencyAnalyzer.analyze
  by_cases h : (TextDocument.tokens ⟨c, rs⟩).isEmpty
  · simp [h, optSumCounts, List.lookup]
  · simp only [h, Bool.false_eq_true, if_false]
    simp [List.lookup, optSumCounts, counterOf_sum]

/-- C5 (amended): normalize_text is idempotent on every ASCII string.
The unrestricted claim fails on compatibility characters whose NFKD
decomposition contains uppercase letters (see the counterexample); on
ASCII input the NFKD and combining-mark stages are the identity and the
strip, lowercase and whitespace-collapse stages are idempotent in
combination. -/
theorem c5_normalize_idempotent_ascii (l : PyStr) (h : ∀ c ∈ l, c.toNat < 128) :
    Normalizer.normalize_text (Normalizer.normalize_text l) =
      Normalizer.normalize_text l := by
  have hy := normalize_ascii_form l h
  set m0 := pyLower (pyStrip l) with hm0
  set y := pyCollapseWs m0 with hydef
  rw [hy]
  have hm0ascii : ∀ c ∈ m0, c.toNat < 128 := by
    intro c hc
    obtain ⟨x, hx, rfl⟩ := List.mem_map.mp hc
    exact pyLowerChar_ascii x (h x (mem_pyStrip l x hx))
  have hyascii : ∀ c ∈ y, c.toNat < 128 := by
    intro c hc
    rcases mem_collapseWsAux m0 false c hc with h2 | h2
    · exact hm0ascii c h2
    · subst h2
      decide
  have hhead : ∀ c, y.head? = some c → pyIsSpace c = false := by
    intro c hc
    cases hstrip : pyStrip l with
    | nil =>
      rw [hydef, hm0, hstrip] at hc
      simp [pyLower, pyCollapseWs, collapseWsAux] at hc
    | cons x0 t0 =>
      have hx0 : pyIsSpace x0 = false := by
        apply pyStrip_head l x0
        rw [hstrip]
        rfl
      have hm0head : m0.head? = some (pyLowerChar x0) := by
        rw [hm0, hstrip]
        rfl
      have := collapse_head m0 (pyLowerChar x0) hm0head
        (by rw [pyIsSpace_lowerChar]; exact hx0) false
      rw [hydef] at hc
      unfold pyCollapseWs at hc
      rw [this] at hc
      cases hc
      rw [pyIsSpace_lowerChar]
      exact hx0
  have hlast : ∀ c, y.getLast? = some c → pyIsSpace c = false := by
    intro c hc
    cases hstrip : (pyStrip l).getLast? with
    | none =>
      have : pyStrip l = [] := by
        cases hsl : pyStrip l with
        | nil => rfl
        | cons a t =>
          rw [hsl] at hstrip
          simp at hstrip
      rw [hydef, hm0, this] at hc
      simp [pyLower, pyCollapseWs, collapseWsAux] at hc
    | some x0 =>
      have hx0 : pyIsSpace x0 = false := pyStrip_getLast l x0 hstrip
      have hm0last : m0.getLast? = some (pyLowerChar x0) := by
        rw [hm0]
        unfold pyLower
        rw [List.getLast?_map, hstrip]
        rfl
      have := collapse_getLast (pyLowerChar x0)
        (by rw [pyIsSpace_lowerChar]; exact hx0) m0 hm0last false
      rw [hydef] at hc
      unfold pyCollapseWs at hc
      rw [this] at hc
      cases hc
      rw [pyIsSpace_lowerChar]
      exact hx0
  have hstrip_y : pyStrip y = y := pyStrip_eq_self y hhead hlast
  have hlower_y : pyLower y = y := by
    have : ∀ c ∈ y, pyLowerChar c = c := by
      intro c hc
      rcases mem_collapseWsAux m0 false c hc with h2 | h2
      · obtain ⟨x, _, rfl⟩ := List.mem_map.mp h2
        exact pyLowerChar_idem x
      · subst h2
        decide
    calc pyLower y = y.map id := List.map_congr_left this
    _ = y := List.map_id y
  unfold Normalizer.normalize_text
  rw [hstrip_y, hlower_y, pyNFKD_ascii y hyascii, stripDiacritics_ascii y hyascii]
  rw [hydef]
  unfold pyCollapseWs
  exact (collapseWsAux_idem m0).2 false

/-- Counterexample for C5 as stated: the trade-mark sign is untouched by
str.lower but NFKD-decomposes to the uppercase letters T M, so a second
normalize pass lowercases them and changes the result. -/
theorem c5_counterexample_trademark :
    Normalizer.normalize_text (Normalizer.normalize_text "™".data) ≠
      Normalizer.normalize_text "™".data ∧
    Normalizer.normalize_text "™".data = "TM".data ∧
    Normalizer.normalize_text (Normalizer.normalize_text "™".data) = "tm".data := by
  refine ⟨by decide, by decide, by decide⟩

/-- Witness for the amended C5 at a concrete ASCII string. -/
theorem c5_normalize_idempotent_ascii_witness :
    (∀ c ∈ ("  Hello,   World!  ".data : PyStr), c.toNat < 128) ∧
    Normalizer.normalize_text (Normalizer.normalize_text "  Hello,   World!  ".data) =
      Normalizer.normalize_text "  Hello,   World!  ".data :=
  ⟨by decide, c5_normalize_idempotent_ascii "  Hello,   World!  ".data (by decide)⟩

/-- C9: configuration errors fail fast. A pattern list containing any
pattern the regex compiler rejects makes add_patterns (called by the
RegexExtractor constructor) raise ValueError at construction time; a
successful construction certifies every pattern compiled, so extraction
(a total function of compiled patterns) can never hit a compilation
error. DataLoader.load_json raises the distinguishable DataLoadError
variants for a missing file and for unparseable content, and returns ok
only with the actual parse of the actual file content (no silent
degradation to an empty mapping). -/
theorem c9_fail_fast_configuration :
    (∀ (α : Type) (compile : String → Except String α) (patterns : List String)
        (p : String) (e : String), p ∈ patterns → compile p = Except.error e →
        RegexExtractor.add_patterns compile patterns = Except.error PyErr.valueError) ∧
    (∀ (α : Type) (compile : String → Except String α) (patterns : List String)
        (cs : List α), RegexExtractor.add_patterns compile patterns = Except.ok cs →
        ∀ p ∈ patterns, ∃ cp, compile p = Except.ok cp) ∧
    (∀ (α : Type) (fs : List (String × String)) (parse : String → Option α)
        (name : String), List.lookup name fs = none →
        DataLoader.load_json fs parse name = Except.error (PyErr.dataLoadMissing name)) ∧
    (∀ (α : Type) (fs : List (String × String)) (parse : String → Option α)
        (name : String) (s : String), List.lookup name fs = some s → parse s = none →
        DataLoader.load_json fs parse name = Except.error (PyErr.dataLoadMalformed name)) ∧
    (∀ (α : Type) (fs : List (String × String)) (parse : String → Option α)
        (name : String) (j : α), DataLoader.load_json fs parse name = Except.ok j →
        ∃ s, List.lookup name fs = some s ∧ parse s = some j) := by
  refine ⟨?_, ?_, ?_, ?_, ?_⟩
  · intro α compile patterns
    induction patterns with
    | nil => intro p e hp; simp at hp
    | cons q ps ih =>
      intro p e hp he
      rw [RegexExtractor.add_patterns]
      cases hq : compile q with
      | error e2 => rfl
      | ok cq =>
        rcases List.mem_cons.mp hp with rfl | hp
        · rw [hq] at he; exact absurd he (by simp)
        · rw [ih p e hp he]
  · intro α compile patterns
    induction patterns with
    | nil => intro cs _ p hp; simp at hp
    | cons q ps ih =>
      intro cs hok p hp
      rw [RegexExtractor.add_patterns] at hok
      cases hq : compile q with
      | error e2 => rw [hq] at hok; simp at hok
      | ok cq =>
        rw [hq] at hok
        cases hrec : RegexExtractor.add_patterns compile ps with
        | error e3 => rw [hrec] at hok; simp at hok
        | ok cs2 =>
          rcases List.mem_cons.mp hp with rfl | hp
          · exact ⟨cq, hq⟩
          · exact ih cs2 hrec p hp
  · intro α fs parse name h
    unfold DataLoader.load_json
    rw [h]
  · intro α fs parse name s h hp
    unfold DataLoader.load_json
    rw [h]
    simp [hp]
  · intro α fs parse name j h
    unfold DataLoader.load_json at h
    cases hl : List.lookup name fs with
    | none => rw [hl] at h; simp at h
    | some s =>
      rw [hl] at h
      cases hp : parse s with
      | none => simp [hp] at h
      | some j2 =>
        simp [hp] at h
        exact ⟨s, rfl, by rw [hp, h]⟩

/-- Witness for C9 at concrete instances. -/
theorem c9_fail_fast_configuration_witness :
    ("[" ∈ (["[", "ab"] : List String)) ∧
    RegexExtractor.add_patterns sampleCompile ["[", "ab"] = Except.error PyErr.valueError ∧
    DataLoader.load_json sampleFS sampleParse "absent.json" =
      Except.error (PyErr.dataLoadMissing "absent.json") ∧
    DataLoader.load_json (("bad.json", "oops") :: sampleFS) sampleParse "bad.json" =
      Except.error (PyErr.dataLoadMalformed "bad.json") :=
  ⟨by decide,
   c9_fail_fast_configuration.1 String sampleCompile ["[", "ab"] "[" "unbalanced bracket" (by decide) rfl,
   c9_fail_fast_configuration.2.2.1 Nat sampleFS sampleParse "absent.json" rfl,
   c9_fail_fast_configuration.2.2.2.1 Nat (("bad.json", "oops") :: sampleFS) sampleParse "bad.json" "oops"
     rfl rfl⟩

/-- C10: for every document, every token of the tokens accessor is a
nonempty maximal run of word characters taken from the lowercased
content: no whitespace or punctuation, already lowercased, diacritics
preserved (the accessor applies no decomposition; the flattening equation
shows each character comes unchanged from the lowercased content), and
maximality is witnessed by a decomposition of the lowercased content
into the tokens interleaved with purely non-word separators in which
every separator between two consecutive tokens is nonempty. -/
theorem c10_tokens_are_lowercased_word_runs (d : TextDocument) : C10Prop d := by
  have hrun := runsBy_props isWordChar (pyLower d.content).length (pyLower d.content)
    le_rfl
  have htok : d.tokens = runsBy isWordChar (pyLower d.content) := rfl
  unfold C10Prop
  rw [htok]
  refine ⟨?_, hrun.1, ?_⟩
  · intro t htm
    have hp := hrun.2 t htm
    refine ⟨hp.1, fun ch hch => ⟨hp.2 ch hch, wordChar_not_space ch (hp.2 ch hch)⟩, ?_⟩
    have hmem : ∀ ch ∈ t, ch ∈ pyLower d.content := by
      intro ch hch
      have : ch ∈ (runsBy isWordChar (pyLower d.content)).flatten :=
        List.mem_flatten.mpr ⟨t, htm, hch⟩
      rw [hrun.1] at this
      exact List.mem_of_mem_filter this
    have : ∀ ch ∈ t, pyLowerChar ch = ch := by
      intro ch hch
      obtain ⟨x, _, rfl⟩ := List.mem_map.mp (hmem ch hch)
      exact pyLowerChar_idem x
    calc pyLower t = t.map id := List.map_congr_left this
    _ = t := List.map_id t
  · exact runsBy_decomp isWordChar (pyLower d.content).length (pyLower d.content) le_rfl

/-- Witness for C10 at a concrete document with diacritics, digits and
punctuation. -/
theorem c10_tokens_are_lowercased_word_runs_witness :
    C10Prop ⟨"Café 123!".data, []⟩ :=
  c10_tokens_are_lowercased_word_runs ⟨"Café 123!".data, []⟩

end Claims

end TextToolkit
